import Mathlib

/-!
Maestro Vision playback scheduling core, shallow embedding.

This file embeds the playback scheduling core of the Maestro Vision
repository (`src/services/audioService.ts`) in Lean 4 and proves the
spec's testable properties about it.

Conventions of the embedding:

* JavaScript numbers are modelled as `ℚ` (the scheduling arithmetic is
  plain field arithmetic; no rounding-sensitive claim is in scope).
* The external Tone.js time primitive (`Tone.Time(token).toSeconds()`)
  is an out-of-scope collaborator; it is modelled on the fixed token
  vocabulary the recognition schema produces (`"1n"`, `"2n"`, `"4n"`,
  `"8n"`, `"16n"`, `"32n"`, `"64n"`), with every other token throwing,
  modelled as `none`.
* `Tone.Transport.schedule` / `Tone.Draw.schedule` register future
  callbacks; the embedding makes the registered events explicit as a
  list of `Event` values carried in the service state.
* `try`/`catch` becomes `Option` matching; JavaScript `Map` becomes an
  association list whose lookup takes the most recent binding.
-/

/-- Structure `ParsedNote` from `types.ts`: pitch string, symbolic duration token,
normalized horizontal position. -/
structure ParsedNote where
  pitch : String
  duration : String
  x : ℚ
deriving DecidableEq

/-- Structure `NoteWithIndex` from `audioService.ts`: a `ParsedNote` together with
its `originalIndex` (position within its system's note list). -/
structure NoteWithIndex where
  pitch : String
  duration : String
  x : ℚ
  originalIndex : ℕ
deriving DecidableEq

instance : Inhabited NoteWithIndex := ⟨⟨"", "", 0, 0⟩⟩

/-- Structure `ParsedSystem` from `types.ts` (the fields the scheduler reads). -/
structure ParsedSystem where
  yTop : ℚ
  yBottom : ℚ
  notes : List ParsedNote
deriving DecidableEq

/-- Structure `SheetAnalysis` from `types.ts` (the fields the scheduler reads). -/
structure SheetAnalysis where
  tempo : ℚ
  timeSignature : String
  systems : List ParsedSystem
deriving DecidableEq

/-- Page lifecycle status from `types.ts`. -/
inductive PageStatus where
  | pending
  | analyzing
  | ready
  | error
deriving DecidableEq

/-- Structure `SheetPage` from `types.ts` (the fields the scheduler reads):
`data` is present iff analysis succeeded. -/
structure SheetPage where
  id : String
  status : PageStatus
  data : Option SheetAnalysis
deriving DecidableEq

/-- An event registered against the transport timeline: either a
pitched-sound trigger (`sampler.triggerAttackRelease pitch playDuration
time`) or a cursor callback (`onNotePlay pageId sysIdx noteIdx`,
drawn at `time`). -/
inductive Event where
  | trigger (pitch : String) (playDuration : ℚ) (time : ℚ)
  | cursor (pageId : String) (sysIdx : ℕ) (noteIdx : ℕ) (time : ℚ)
deriving DecidableEq

/-- The absolute transport time an event is registered at. -/
def Event.time : Event → ℚ
  | .trigger _ _ t => t
  | .cursor _ _ _ t => t

/-- Modelled from the spec: the external Tone.js conversion of a
symbolic duration token to seconds at the current tempo
(`Tone.Time(token).toSeconds()` with `Tone.Transport.bpm.value = bpm`).
The recognition schema fixes the vocabulary to the plain binary
subdivisions; a whole note (`"1n"`) is four beats, one beat is
`60 / bpm` seconds. Any token outside the vocabulary makes the
collaborator throw, modelled here as `none`. -/
def toneTimeToSeconds (bpm : ℚ) (token : String) : Option ℚ :=
  if token = "1n" then some (240 / bpm)
  else if token = "2n" then some (120 / bpm)
  else if token = "4n" then some (60 / bpm)
  else if token = "8n" then some (30 / bpm)
  else if token = "16n" then some (15 / bpm)
  else if token = "32n" then some (15 / 2 / bpm)
  else if token = "64n" then some (15 / 4 / bpm)
  else none

/-- Conversion `Tone.Time(n.duration || "4n")`: an empty (falsy) duration token
defaults to a quarter note before conversion. -/
def declaredDurationSeconds (bpm : ℚ) (duration : String) : Option ℚ :=
  toneTimeToSeconds bpm (if duration = "" then "4n" else duration)

/-- One iteration of the `validAudioDurations` collection loop
(`audioService.ts` lines 133-140): a token that converts to more than
the 0.01 s noise floor contributes its value, a convertible token at or
below the floor is discarded, and an unconvertible token (the `catch`
branch) contributes a quarter note at the current tempo. -/
def audioDurationContrib (bpm : ℚ) (n : NoteWithIndex) : Option ℚ :=
  match declaredDurationSeconds bpm n.duration with
  | some sec => if sec > 1 / 100 then some sec else none
  | none => some (60 / bpm)

/-- The `validAudioDurations` array for one column. -/
def validAudioDurations (bpm : ℚ) (column : List NoteWithIndex) : List ℚ :=
  column.filterMap (audioDurationContrib bpm)

/-- Value `minAudioDuration` (`audioService.ts` line 141): the minimum of the
collected values, falling back to an eighth note (`Tone.Time("8n")`,
`30 / bpm` seconds) when nothing was collected. -/
def minAudioDuration (bpm : ℚ) (column : List NoteWithIndex) : ℚ :=
  match validAudioDurations bpm column with
  | [] => 30 / bpm
  | d :: ds => ds.foldl min d

/-- The visual-pacing cap (`audioService.ts` lines 147-166): `none`
models `Infinity` (no next column). With a next column, the x-distance
between the two anchors, floored at 0.001, is converted to seconds via
the 20-beats-per-page-width heuristic and a 1.2 headroom multiplier;
a zero transport bpm falls back to 100 (`bpm || 100`). -/
def visualCap (bpm : ℚ) (column : List NoteWithIndex) :
    Option (List NoteWithIndex) → Option ℚ
  | none => none
  | some nextColumn =>
      let currentX := column.headI.x
      let nextX := nextColumn.headI.x
      let deltaX := max (1 / 1000) (nextX - currentX)
      let bpmEff := if bpm = 0 then 100 else bpm
      let secondsPerBeat := 60 / bpmEff
      some (deltaX * 20 * secondsPerBeat * (12 / 10))

/-- The step duration of a column (`audioService.ts` lines 171-172):
the minimum of the audio estimate and the visual cap (`min` against
`Infinity` when no next column exists), clamped below by 0.1 s. -/
def stepDuration (bpm : ℚ) (column : List NoteWithIndex)
    (nextColumn : Option (List NoteWithIndex)) : ℚ :=
  let s :=
    match visualCap bpm column nextColumn with
    | none => minAudioDuration bpm column
    | some v => min (minAudioDuration bpm column) v
  max (1 / 10) s

/-- Constant `X_THRESHOLD` from `groupNotesByColumn` (`audioService.ts` line 98). -/
def X_THRESHOLD : ℚ := 15 / 1000

/-- The `x`-comparison used to sort notes before grouping
(the JavaScript comparator `(a, b) => a.x - b.x`). -/
def leX (a b : NoteWithIndex) : Prop := a.x ≤ b.x

instance : DecidableRel leX := fun a b => inferInstanceAs (Decidable (a.x ≤ b.x))

instance : IsTotal NoteWithIndex leX := ⟨fun a b => le_total a.x b.x⟩

instance : IsTrans NoteWithIndex leX := ⟨fun _ _ _ h h' => le_trans h h'⟩

/-- The stable ascending-by-`x` sort at the head of `groupNotesByColumn`
(`audioService.ts` line 93). -/
def sortByX (notes : List NoteWithIndex) : List NoteWithIndex :=
  List.insertionSort leX notes

/-- The grouping loop of `groupNotesByColumn` (`audioService.ts` lines
100-111): `current` is the open column (its head, `current[0]`, is the
anchor), `cols` the closed columns. A note within `X_THRESHOLD` of the
anchor joins the open column; otherwise the open column is closed and
the note anchors a new one. The final `columns.push(currentColumn)` is
the base case. -/
def groupAux : List NoteWithIndex → List NoteWithIndex →
    List (List NoteWithIndex) → List (List NoteWithIndex)
  | [], current, cols => cols ++ [current]
  | note :: rest, current, cols =>
      if |note.x - current.headI.x| ≤ X_THRESHOLD then
        groupAux rest (current ++ [note]) cols
      else
        groupAux rest [note] (cols ++ [current])

/-- Function `groupNotesByColumn` (`audioService.ts` lines 89-113). -/
def groupNotesByColumn (notes : List NoteWithIndex) :
    List (List NoteWithIndex) :=
  match sortByX notes with
  | [] => []
  | first :: rest => groupAux rest [first] []

/-- Pitch normalization at trigger time (`audioService.ts` lines
178-179): a falsy (empty) pitch becomes the rest sentinel; otherwise
the string is trimmed and uppercased, then the first `♭` is replaced by
`b` and the first `♯` by `#` (JavaScript `String.replace` with a string
pattern rewrites only the first occurrence). -/
def replaceFirstChar (target repl : Char) : List Char → List Char
  | [] => []
  | c :: cs => if c = target then repl :: cs else c :: replaceFirstChar target repl cs

/-- JavaScript `String.prototype.trim`: strip leading and trailing
whitespace. -/
def trimChars (cs : List Char) : List Char :=
  ((cs.dropWhile Char.isWhitespace).reverse.dropWhile Char.isWhitespace).reverse

/-- JavaScript `String.prototype.toUpperCase` on the characters the
recognition schema produces (ASCII letters; `♭` and `♯` have no
uppercase mapping and pass through unchanged). -/
def toUpperChars (cs : List Char) : List Char := cs.map Char.toUpper

/-- See `replaceFirstChar`; this is the whole of lines 178-179. -/
def normalizePitch (pitch : String) : String :=
  if pitch = "" then "REST"
  else
    let u := toUpperChars (trimChars pitch.toList)
    ⟨replaceFirstChar '♯' '#' (replaceFirstChar '♭' 'b' u)⟩

/-- The scientific-pitch test `/^[A-G][#b]?[0-8]$/`
(`audioService.ts` line 180). -/
def matchesPitchPattern (s : String) : Bool :=
  match s.toList with
  | [l, d] => ('A' ≤ l && l ≤ 'G') && ('0' ≤ d && d ≤ '8')
  | [l, a, d] =>
      ('A' ≤ l && l ≤ 'G') && (a = '#' || a = 'b') && ('0' ≤ d && d ≤ '8')
  | _ => false

/-- Predicate `isRest` (`audioService.ts` line 180): the normalized pitch is the
rest sentinel or fails the scientific-pitch test. -/
def isRest (rawPitch : String) : Bool :=
  let pitch := normalizePitch rawPitch
  pitch = "REST" || !(matchesPitchPattern pitch)

/-- The per-note trigger of the scheduled column callback
(`audioService.ts` lines 177-189): rests are skipped; otherwise
`Tone.Time(note.duration)` (no default here) is converted inside a
`try` whose `catch` swallows the note entirely, and the trigger plays
for `max(noteDuration, stepDuration) + 0.4` starting at the column
onset. -/
def noteTriggerEvent (bpm stepDur onset : ℚ) (note : NoteWithIndex) :
    Option Event :=
  if isRest note.pitch then none
  else
    match toneTimeToSeconds bpm note.duration with
    | none => none
    | some noteDuration =>
        some (.trigger (normalizePitch note.pitch)
          (max noteDuration stepDur + 2 / 5) onset)

/-- The column loop of `schedulePage` (`audioService.ts` lines
129-204): each column contributes its member triggers and one cursor
event at `currentTime`, then `currentTime` advances by the step
duration; `columns[colIdx + 1]` is the head of the remaining columns.
Returns the final `currentTime` and the registered events. -/
def scheduleColumns (bpm : ℚ) (pageId : String) (sysIdx : ℕ) :
    List (List NoteWithIndex) → ℚ → ℚ × List Event
  | [], t => (t, [])
  | column :: restCols, t =>
      let step := stepDuration bpm column restCols.head?
      let triggers := column.filterMap (noteTriggerEvent bpm step t)
      let cursorEvs : List Event :=
        if column.length > 0 then
          [.cursor pageId sysIdx column.headI.originalIndex t]
        else []
      let rec' := scheduleColumns bpm pageId sysIdx restCols (t + step)
      (rec'.1, triggers ++ cursorEvs ++ rec'.2)

/-- Wrapper for `system.notes.map((n, i) => ({ ...n, originalIndex: i }))`
(`audioService.ts` line 126). -/
def attachIndex (notes : List ParsedNote) : List NoteWithIndex :=
  notes.enum.map fun p => ⟨p.2.pitch, p.2.duration, p.2.x, p.1⟩

/-- The system loop of `schedulePage` (`audioService.ts` lines
125-205). -/
def scheduleSystems (bpm : ℚ) (pageId : String) :
    List ParsedSystem → ℕ → ℚ → ℚ × List Event
  | [], _, t => (t, [])
  | system :: rest, sysIdx, t =>
      let columns := groupNotesByColumn (attachIndex system.notes)
      let r₁ := scheduleColumns bpm pageId sysIdx columns t
      let r₂ := scheduleSystems bpm pageId rest (sysIdx + 1) r₁.1
      (r₂.1, r₁.2 ++ r₂.2)

/-- The mutable state of the `AudioService` singleton together with the
transport collaborator it drives: `samplerPresent`/`isLoaded` model
`this.sampler !== null` and `this.isLoaded`; `pageEndTimes` is the
`Map` (most recent binding wins); `bpm` is `Tone.Transport.bpm.value`;
`transportRunning` and `transportScheduled` model the transport clock
state and its registered future events. -/
structure AudioServiceState where
  samplerPresent : Bool
  isLoaded : Bool
  pageEndTimes : List (String × ℚ)
  bpm : ℚ
  transportRunning : Bool
  transportScheduled : List Event
deriving DecidableEq

/-- Lookup in the modelled `Map`: the most recent binding wins. -/
def mapGet (m : List (String × ℚ)) (k : String) : Option ℚ :=
  (m.find? fun p => p.1 = k).map fun p => p.2

/-- Function `getPageEndTime` (`audioService.ts` lines 85-87). -/
def getPageEndTime (st : AudioServiceState) (pageId : String) : Option ℚ :=
  mapGet st.pageEndTimes pageId

/-- The result of a `schedulePage` call: the updated service state, the
returned end time, and the events this call registered. -/
structure ScheduleResult where
  state : AudioServiceState
  endTime : ℚ
  events : List Event
deriving DecidableEq

/-- Function `schedulePage` (`audioService.ts` lines 115-209): without a loaded
sampler or page data the call is a no-op returning `startTime`;
otherwise the systems are walked, the computed events are registered on
the transport, the end time is recorded in `pageEndTimes`, and the end
time is returned. -/
def schedulePage (st : AudioServiceState) (page : SheetPage)
    (startTime : ℚ) : ScheduleResult :=
  match page.data with
  | none => ⟨st, startTime, []⟩
  | some data =>
      if st.samplerPresent && st.isLoaded then
        let r := scheduleSystems st.bpm page.id data.systems 0 startTime
        ⟨{ st with
            pageEndTimes := (page.id, r.1) :: st.pageEndTimes,
            transportScheduled := st.transportScheduled ++ r.2 },
          r.1, r.2⟩
      else ⟨st, startTime, []⟩

/-- Function `stop` (`audioService.ts` lines 65-69): `Tone.Transport.stop()`
halts the clock, `Tone.Transport.cancel()` removes every event
registered along the transport timeline (modelled from the spec's
cancellation contract for the transport collaborator), and the
page-end-time map is cleared. -/
def AudioService.stop (st : AudioServiceState) : AudioServiceState :=
  { st with
      transportRunning := false,
      transportScheduled := [],
      pageEndTimes := [] }

/-- Concrete notes for the grouping scenario of §8 of the spec:
x-positions 0.10, 0.11, 0.50. -/
def noteA : NoteWithIndex := ⟨"C4", "4n", 1 / 10, 0⟩

/-- See `noteA`. -/
def noteB : NoteWithIndex := ⟨"D4", "4n", 11 / 100, 1⟩

/-- See `noteA`. -/
def noteC : NoteWithIndex := ⟨"E4", "4n", 1 / 2, 2⟩

/-- A note whose duration token the time collaborator cannot convert. -/
def badDurationNote : NoteWithIndex := ⟨"C4", "xyz", 0, 0⟩

/-- A loaded service state over an empty transport at 100 BPM. -/
def loadedState : AudioServiceState := ⟨true, true, [], 100, false, []⟩

/-- A ready page whose only note has the invalid pitch `"H9"`. -/
def pageH9 : SheetPage :=
  ⟨"p1", .ready, some ⟨100, "4/4", [⟨0, 1 / 10, [⟨"H9", "4n", 1 / 2⟩]⟩]⟩⟩

/-- A ready page whose only note has the ASCII flat pitch `"Eb4"`. -/
def pageEb : SheetPage :=
  ⟨"p2", .ready, some ⟨100, "4/4", [⟨0, 1 / 10, [⟨"Eb4", "4n", 1 / 2⟩]⟩]⟩⟩

/-- A page still waiting for analysis: no data. -/
def pendingPage : SheetPage := ⟨"p3", .pending, none⟩

/-- A ready page with one two-note system, for end-time bookkeeping. -/
def readyPageW : SheetPage :=
  ⟨"p4", .ready, some ⟨100, "4/4",
    [⟨0, 1 / 10, [⟨"C4", "4n", 1 / 10⟩, ⟨"E4", "4n", 1 / 2⟩]⟩]⟩⟩

/-- The anchor-order relation between columns: the head (anchor) of the
earlier column sits at an x no larger than the later column's anchor. -/
def anchorLe (c d : List NoteWithIndex) : Prop := c.headI.x ≤ d.headI.x

theorem stepDuration_ge_floor (bpm : ℚ) (column : List NoteWithIndex)
    (nextColumn : Option (List NoteWithIndex)) :
    1 / 10 ≤ stepDuration bpm column nextColumn :=
  le_max_left _ _

theorem stepDuration_pos (bpm : ℚ) (column : List NoteWithIndex)
    (nextColumn : Option (List NoteWithIndex)) :
    0 < stepDuration bpm column nextColumn :=
  lt_of_lt_of_le (by norm_num) (stepDuration_ge_floor bpm column nextColumn)

/-- C1: for every column, every next-column option (including none, the
last column of a system) and every tempo — hence also for columns whose
declared durations are all invalid or all below the noise floor — the
step duration computed by the scheduler is at least the configured
0.1 s floor and strictly positive; by definition it is the clamp
`max (1/10) (min audio visual)`. -/
theorem c1_stepDuration_floored_and_positive (bpm : ℚ)
    (column : List NoteWithIndex)
    (nextColumn : Option (List NoteWithIndex)) :
    1 / 10 ≤ stepDuration bpm column nextColumn ∧
      0 < stepDuration bpm column nextColumn :=
  ⟨stepDuration_ge_floor bpm column nextColumn,
    stepDuration_pos bpm column nextColumn⟩

/-- C4: column membership is decided against the anchor (`current[0]`,
the first note placed in the column): a note within `X_THRESHOLD` of
the anchor joins the open column, a note farther away closes it and
anchors a new column; and the concrete scenario with notes at
x = 0.10, 0.11, 0.50 groups into exactly the two columns
`{0.10, 0.11}` and `{0.50}`. -/
theorem c4_anchor_membership :
    (∀ (note : NoteWithIndex) (rest current : List NoteWithIndex)
        (cols : List (List NoteWithIndex)),
      (|note.x - current.headI.x| ≤ X_THRESHOLD →
        groupAux (note :: rest) current cols =
          groupAux rest (current ++ [note]) cols) ∧
      (X_THRESHOLD < |note.x - current.headI.x| →
        groupAux (note :: rest) current cols =
          groupAux rest [note] (cols ++ [current]))) ∧
    groupNotesByColumn [noteA, noteB, noteC] = [[noteA, noteB], [noteC]] := by
  constructor
  · intro note rest current cols
    constructor
    · intro h
      simp [groupAux, h]
    · intro h
      simp [groupAux, not_le.mpr h]
  · norm_num [groupNotesByColumn, sortByX, List.insertionSort,
      List.orderedInsert, leX, noteA, noteB, noteC, groupAux, X_THRESHOLD,
      abs_le]

/-- Witness for C4: the membership laws applied at concrete inputs —
0.11 is within the threshold of the anchor 0.10 and joins its column;
0.50 is beyond the threshold and starts a new column. -/
theorem c4_anchor_membership_witness :
    groupAux [noteB] [noteA] [] = groupAux [] ([noteA] ++ [noteB]) [] ∧
    groupAux [noteC] [noteA, noteB] [] =
      groupAux [] [noteC] ([] ++ [[noteA, noteB]]) :=
  ⟨(c4_anchor_membership.1 noteB [] [noteA] []).1
      (by norm_num [noteA, noteB, X_THRESHOLD, abs_le]),
    (c4_anchor_membership.1 noteC [] [noteA, noteB] []).2
      (by norm_num [noteA, noteB, noteC, X_THRESHOLD, lt_abs, List.headI])⟩

theorem headI_append_of_ne_nil (l l' : List NoteWithIndex) (h : l ≠ []) :
    (l ++ l').headI = l.headI := by
  cases l with
  | nil => exact absurd rfl h
  | cons a as => rfl

theorem flatten_groupAux : ∀ (rest current : List NoteWithIndex)
    (cols : List (List NoteWithIndex)),
    (groupAux rest current cols).flatten = cols.flatten ++ current ++ rest := by
  intro rest
  induction rest with
  | nil =>
      intro current cols
      simp [groupAux]
  | cons note rest ih =>
      intro current cols
      rw [groupAux]
      split
      · rw [ih (current ++ [note]) cols]
        simp
      · rw [ih [note] (cols ++ [current])]
        simp

theorem chain_groupAux : ∀ (rest current : List NoteWithIndex)
    (cols : List (List NoteWithIndex)),
    current ≠ [] →
    List.Pairwise leX rest →
    (∀ y ∈ rest, current.headI.x ≤ y.x) →
    List.Chain' anchorLe (cols ++ [current]) →
    List.Chain' anchorLe (groupAux rest current cols) := by
  intro rest
  induction rest with
  | nil =>
      intro current cols _ _ _ hch
      rw [groupAux]
      exact hch
  | cons note rest ih =>
      intro current cols hne hpw hcr hch
      rw [groupAux]
      rcases List.pairwise_cons.mp hpw with ⟨hnote, hpw'⟩
      split
      · refine ih (current ++ [note]) cols (by simp) hpw' ?_ ?_
        · intro y hy
          rw [headI_append_of_ne_nil current [note] hne]
          exact hcr y (List.mem_cons_of_mem note hy)
        · rcases List.chain'_append.mp hch with ⟨hc1, _, hc3⟩
          refine List.chain'_append.mpr ⟨hc1, List.chain'_singleton _, ?_⟩
          intro x hx y hy
          simp only [List.head?_cons, Option.mem_def, Option.some.injEq] at hy
          subst hy
          have := hc3 x hx current (by simp)
          simpa [anchorLe, headI_append_of_ne_nil current [note] hne] using this
      · refine ih [note] (cols ++ [current]) (by simp) hpw' ?_ ?_
        · intro y hy
          simpa [List.headI] using hnote y hy
        · refine List.chain'_append.mpr ⟨hch, List.chain'_singleton _, ?_⟩
          intro x hx y hy
          simp only [List.head?_cons, Option.mem_def, Option.some.injEq] at hy
          subst hy
          rw [List.getLast?_concat] at hx
          simp only [Option.mem_def, Option.some.injEq] at hx
          subst hx
          simpa [anchorLe, List.headI] using hcr note (List.mem_cons_self note rest)

/-- C3: for every input note list, the grouper's output columns are
ordered by ascending anchor x (the anchors form an ascending chain),
and the concatenation of all columns is a permutation of the input —
no note is lost or duplicated. -/
theorem c3_group_ordered_and_partitions (notes : List NoteWithIndex) :
    List.Chain' anchorLe (groupNotesByColumn notes) ∧
      (groupNotesByColumn notes).flatten.Perm notes := by
  have hsort : List.Sorted leX (sortByX notes) :=
    List.sorted_insertionSort leX notes
  have hperm : (sortByX notes).Perm notes := List.perm_insertionSort leX notes
  rcases h : sortByX notes with _ | ⟨first, rest⟩
  · rw [groupNotesByColumn, h]
    constructor
    · exact List.chain'_nil
    · rw [h] at hperm
      simpa using hperm
  · rw [groupNotesByColumn, h]
    rw [h] at hsort hperm
    rcases List.pairwise_cons.mp hsort with ⟨hfirst, hrest⟩
    constructor
    · refine chain_groupAux rest [first] [] (by simp) hrest ?_ ?_
      · intro y hy
        simpa [List.headI] using hfirst y hy
      · simp
    · rw [flatten_groupAux rest [first] []]
      simpa using hperm

theorem validAudioDurations_all_bad (bpm : ℚ) :
    ∀ (column : List NoteWithIndex),
    (∀ n ∈ column, declaredDurationSeconds bpm n.duration = none) →
    validAudioDurations bpm column =
      List.replicate column.length (60 / bpm) := by
  intro column
  induction column with
  | nil => intro _; rfl
  | cons n l ih =>
      intro h
      have hn : declaredDurationSeconds bpm n.duration = none :=
        h n (List.mem_cons_self n l)
      have hl := ih fun m hm => h m (List.mem_cons_of_mem n hm)
      rw [validAudioDurations, List.filterMap_cons]
      rw [audioDurationContrib, hn]
      rw [validAudioDurations] at hl
      simp [List.replicate_succ, hl]

theorem foldl_min_replicate (q : ℚ) :
    ∀ (k : ℕ), (List.replicate k q).foldl min q = q := by
  intro k
  induction k with
  | zero => rfl
  | succ k ih => simp [List.replicate_succ, ih]

/-- Counterexample for C2: at 100 BPM, a column whose only duration
token is unconvertible (`"xyz"`) yields the audio estimate 3/5 s — a
quarter note, contributed by the `catch` branch — which differs from
the eighth-note duration 3/10 s the claim asserts as the fallback. -/
theorem c2_counterexample_unparseable_gives_quarter :
    declaredDurationSeconds 100 badDurationNote.duration = none ∧
    toneTimeToSeconds 100 "8n" = some (30 / 100) ∧
    minAudioDuration 100 [badDurationNote] = 3 / 5 ∧
    (3 / 5 : ℚ) ≠ 30 / 100 := by
  refine ⟨by decide, rfl, ?_, by norm_num⟩
  have h : declaredDurationSeconds 100 "xyz" = none := by decide
  norm_num [minAudioDuration, validAudioDurations, audioDurationContrib,
    badDurationNote, h, List.filterMap_cons, List.filterMap_nil]

/-- C2 (amended): parsed duration values at or below the 0.01 s noise
floor are discarded and the minimum of the collected values is taken,
but an unconvertible token contributes a quarter note at the current
tempo via the `catch` branch rather than being discarded; the
eighth-note fallback applies only when nothing at all was collected.
Hence a nonempty column whose every duration token is unconvertible
has audio estimate equal to a quarter note (`60 / bpm` seconds), not
an eighth note. -/
theorem c2_amended_all_unparseable_gives_quarter (bpm : ℚ)
    (column : List NoteWithIndex) (hne : column ≠ [])
    (hbad : ∀ n ∈ column, declaredDurationSeconds bpm n.duration = none) :
    minAudioDuration bpm column = 60 / bpm := by
  rw [minAudioDuration, validAudioDurations_all_bad bpm column hbad]
  cases column with
  | nil => exact absurd rfl hne
  | cons n l =>
      simp only [List.length_cons, List.replicate_succ]
      exact foldl_min_replicate (60 / bpm) l.length

/-- Witness for C2 (amended): the all-unconvertible single-note column
at 100 BPM evaluates to the quarter-note estimate. -/
theorem c2_amended_all_unparseable_gives_quarter_witness :
    minAudioDuration 100 [badDurationNote] = 60 / 100 :=
  c2_amended_all_unparseable_gives_quarter 100 [badDurationNote]
    (by simp) (by decide)

/-- Counterexample for C5: the raw pitch `"Eb4"` is letter, accidental,
octave digit — yet the scheduler classifies it as a rest (uppercasing
runs before the `♭ → b` replacement, so it becomes `"EB4"`, which fails
the pattern), and scheduling a ready page whose only note carries it
registers no pitched-sound trigger, only the cursor event. -/
theorem c5_counterexample_ascii_flat_is_rested :
    matchesPitchPattern "Eb4" = true ∧
    normalizePitch "Eb4" = "EB4" ∧
    isRest "Eb4" = true ∧
    (schedulePage loadedState pageEb 0).events = [.cursor "p2" 0 0 0] := by
  refine ⟨by decide, by decide, by decide, ?_⟩
  have h : isRest "Eb4" = true := by decide
  norm_num [schedulePage, loadedState, pageEb, scheduleSystems,
    scheduleColumns, attachIndex, groupNotesByColumn, sortByX,
    List.insertionSort, noteTriggerEvent, h, List.filterMap_cons, groupAux]

/-- C5 (amended): a note is classified a non-rest exactly when its
normalized pitch — trimmed, uppercased, then first `♭` replaced by `b`
and first `♯` by `#` — matches `^[A-G][#b]?[0-8]$` (the rest sentinel
itself never matches); and a pitched-sound trigger is scheduled for a
column note exactly when it is a non-rest AND its duration token also
converts (an unconvertible duration silently suppresses the trigger).
ASCII flat spellings such as `"Eb4"` are uppercased before the
replacement and are therefore rested. -/
theorem c5_amended_trigger_iff_pattern_and_duration (bpm stepDur t : ℚ)
    (n : NoteWithIndex) :
    isRest n.pitch = !matchesPitchPattern (normalizePitch n.pitch) ∧
    (noteTriggerEvent bpm stepDur t n).isSome =
      (!isRest n.pitch && (toneTimeToSeconds bpm n.duration).isSome) := by
  constructor
  · by_cases h : normalizePitch n.pitch = "REST"
    · rw [isRest, h]
      decide
    · simp [isRest, h]
  · rw [noteTriggerEvent]
    by_cases h : isRest n.pitch
    · simp [h]
    · simp only [h, if_false, Bool.not_false, Bool.true_and]
      cases toneTimeToSeconds bpm n.duration with
      | none => rfl
      | some d => rfl

/-- C6: scheduling a page that is not ready (its analysis data is
absent) is a no-op — the service state is unchanged (nothing is
registered on the transport, the end-time map is untouched), the
returned end time is the given start time, and, the embedding being a
total function, no exception is raised. -/
theorem c6_not_ready_noop (st : AudioServiceState) (page : SheetPage)
    (t : ℚ) (h : page.data = none) :
    schedulePage st page t = ⟨st, t, []⟩ := by
  simp [schedulePage, h]

/-- Witness for C6: a concrete pending page scheduled at 5 s. -/
theorem c6_not_ready_noop_witness :
    schedulePage loadedState pendingPage 5 = ⟨loadedState, 5, []⟩ :=
  c6_not_ready_noop loadedState pendingPage 5 rfl

/-- C9: `stop` is idempotent and fully clears the registered future
events — after it returns, the transport timeline holds no scheduled
trigger or cursor callback (so none can ever fire), and a second
`stop` changes nothing further. -/
theorem c9_stop_idempotent_and_clears (st : AudioServiceState) :
    (AudioService.stop st).transportScheduled = [] ∧
      (AudioService.stop st).transportRunning = false ∧
      AudioService.stop (AudioService.stop st) = AudioService.stop st :=
  ⟨rfl, rfl, rfl⟩

/-- C10: `schedulePage` records the end time it returns — after a call
on a page with data and a loaded sampler, `getPageEndTime` on the
updated state returns exactly the returned end time (the value the
dynamic-append logic reads); on the data-absent early-return path the
whole state, the end-time map included, is left unchanged. -/
theorem c10_end_time_recorded (st : AudioServiceState) (page : SheetPage)
    (t : ℚ) :
    (page.data.isSome = true → st.samplerPresent = true →
      st.isLoaded = true →
      getPageEndTime (schedulePage st page t).state page.id =
        some (schedulePage st page t).endTime) ∧
    (page.data = none → (schedulePage st page t).state = st) := by
  constructor
  · intro hd hs hl
    rcases hd' : page.data with _ | data
    · rw [hd'] at hd
      simp at hd
    · simp [schedulePage, hd', hs, hl, getPageEndTime, mapGet, List.find?]
  · intro h
    simp [schedulePage, h]

/-- Witness for C10: a concrete ready page at a loaded state, and a
concrete data-absent page leaving the state untouched. -/
theorem c10_end_time_recorded_witness :
    (getPageEndTime (schedulePage loadedState readyPageW 0).state
        readyPageW.id =
      some (schedulePage loadedState readyPageW 0).endTime) ∧
    (schedulePage loadedState pendingPage 0).state = loadedState :=
  ⟨(c10_end_time_recorded loadedState readyPageW 0).1 rfl rfl rfl,
    (c10_end_time_recorded loadedState pendingPage 0).2 rfl⟩

theorem noteTriggerEvent_time (bpm s t : ℚ) (n : NoteWithIndex)
    (e : Event) (h : noteTriggerEvent bpm s t n = some e) :
    e.time = t := by
  rw [noteTriggerEvent] at h
  by_cases hr : isRest n.pitch
  · simp [hr] at h
  · simp only [hr, if_false, Bool.false_eq_true] at h
    cases htone : toneTimeToSeconds bpm n.duration with
    | none =>
        rw [htone] at h
        exact absurd h (by simp)
    | some d =>
        rw [htone] at h
        have : Event.trigger (normalizePitch n.pitch) (max d s + 2 / 5) t = e :=
          Option.some.inj h
        rw [← this]
        rfl

theorem scheduleColumns_mono (bpm : ℚ) (pid : String) (sysIdx : ℕ) :
    ∀ (cols : List (List NoteWithIndex)) (t : ℚ),
    t ≤ (scheduleColumns bpm pid sysIdx cols t).1 ∧
      ∀ e ∈ (scheduleColumns bpm pid sysIdx cols t).2, t ≤ e.time := by
  intro cols
  induction cols with
  | nil =>
      intro t
      exact ⟨le_refl t, by intro e he; simp [scheduleColumns] at he⟩
  | cons column rest ih =>
      intro t
      have hstep : 0 < stepDuration bpm column rest.head? :=
        stepDuration_pos bpm column rest.head?
      have hle : t ≤ t + stepDuration bpm column rest.head? :=
        le_add_of_nonneg_right hstep.le
      have hrec := ih (t + stepDuration bpm column rest.head?)
      constructor
      · simp only [scheduleColumns]
        exact le_trans hle hrec.1
      · intro e he
        simp only [scheduleColumns, List.mem_append] at he
        rcases he with (he | he) | he
        · rcases List.mem_filterMap.mp he with ⟨n, _, hn⟩
          rw [noteTriggerEvent_time bpm _ t n e hn]
        · by_cases hcl : column.length > 0
          · rw [if_pos hcl] at he
            simp only [List.mem_singleton] at he
            rw [he]
            rfl
          · rw [if_neg hcl] at he
            simp at he
        · exact le_trans hle (hrec.2 e he)

theorem scheduleSystems_mono (bpm : ℚ) (pid : String) :
    ∀ (systems : List ParsedSystem) (sysIdx : ℕ) (t : ℚ),
    t ≤ (scheduleSystems bpm pid systems sysIdx t).1 ∧
      ∀ e ∈ (scheduleSystems bpm pid systems sysIdx t).2, t ≤ e.time := by
  intro systems
  induction systems with
  | nil =>
      intro sysIdx t
      exact ⟨le_refl t, by intro e he; simp [scheduleSystems] at he⟩
  | cons system rest ih =>
      intro sysIdx t
      have hcols := scheduleColumns_mono bpm pid sysIdx
        (groupNotesByColumn (attachIndex system.notes)) t
      have hrec := ih (sysIdx + 1)
        (scheduleColumns bpm pid sysIdx
          (groupNotesByColumn (attachIndex system.notes)) t).1
      constructor
      · simp only [scheduleSystems]
        exact le_trans hcols.1 hrec.1
      · intro e he
        simp only [scheduleSystems, List.mem_append] at he
        rcases he with he | he
        · exact hcols.2 e he
        · exact le_trans hcols.1 (hrec.2 e he)

theorem schedulePage_mono (st : AudioServiceState) (page : SheetPage)
    (t : ℚ) :
    t ≤ (schedulePage st page t).endTime ∧
      ∀ e ∈ (schedulePage st page t).events, t ≤ e.time := by
  rcases hd : page.data with _ | data
  · simp [schedulePage, hd]
  · rw [schedulePage, hd]
    by_cases hs : st.samplerPresent && st.isLoaded
    · simp only [hs, if_true]
      exact scheduleSystems_mono st.bpm page.id data.systems 0 t
    · simp [hs]

/-- C7: `schedulePage` is monotonic — for every page (ready ones
included) and every start time, the returned end time is at least the
start time, and every audio/cursor event the call registers lies at an
absolute time at least the start time; consequently, chaining a second
page at the first page's returned end time produces no second-page
event before that end time. -/
theorem c7_schedulePage_monotonic (st : AudioServiceState)
    (p₁ p₂ : SheetPage) (t₀ : ℚ) :
    t₀ ≤ (schedulePage st p₁ t₀).endTime ∧
      (∀ e ∈ (schedulePage st p₁ t₀).events, t₀ ≤ e.time) ∧
      ∀ e ∈ (schedulePage (schedulePage st p₁ t₀).state p₂
          (schedulePage st p₁ t₀).endTime).events,
        (schedulePage st p₁ t₀).endTime ≤ e.time :=
  ⟨(schedulePage_mono st p₁ t₀).1, (schedulePage_mono st p₁ t₀).2,
    (schedulePage_mono (schedulePage st p₁ t₀).state p₂
      (schedulePage st p₁ t₀).endTime).2⟩

/-- C8: on a ready page whose single system holds one note with an
invalid (rest-classified) pitch, the scheduler registers no
pitched-sound trigger, yet registers exactly one cursor callback for
the note's column, carrying the column's first member note's original
index (here 0) and fired at the column's onset time — the cursor
advances over silent columns. -/
theorem c8_invalid_pitch_cursor_advances
    (ends : List (String × ℚ)) (bpm : ℚ) (run : Bool) (sched : List Event)
    (pid ts : String) (n : ParsedNote) (t yT yB tempo : ℚ)
    (h : isRest n.pitch = true) :
    (schedulePage ⟨true, true, ends, bpm, run, sched⟩
        ⟨pid, .ready, some ⟨tempo, ts, [⟨yT, yB, [n]⟩]⟩⟩ t).events =
      [.cursor pid 0 0 t] := by
  simp [schedulePage, scheduleSystems, scheduleColumns, attachIndex,
    groupNotesByColumn, sortByX, List.insertionSort, groupAux,
    noteTriggerEvent, h, List.filterMap_cons]

/-- Witness for C8: the page whose only note has pitch `"H9"`. -/
theorem c8_invalid_pitch_cursor_advances_witness :
    (schedulePage loadedState pageH9 0).events = [.cursor "p1" 0 0 0] :=
  c8_invalid_pitch_cursor_advances [] 100 false [] "p1" "4/4"
    ⟨"H9", "4n", 1 / 2⟩ 0 0 (1 / 10) 100 (by decide)

/-- Witness for C7: a concrete loaded state and single-note page — the
returned end time is at least the start time 0 and the registered
cursor event lies at a time at least 0. -/
theorem c7_schedulePage_monotonic_witness :
    (0 : ℚ) ≤ (schedulePage loadedState pageH9 0).endTime ∧
      (0 : ℚ) ≤ (Event.cursor "p1" 0 0 0).time :=
  ⟨(c7_schedulePage_monotonic loadedState pageH9 pendingPage 0).1,
    (c7_schedulePage_monotonic loadedState pageH9 pendingPage 0).2.1
      (Event.cursor "p1" 0 0 0)
      (by
        have h : isRest "H9" = true := by decide
        norm_num [schedulePage, loadedState, pageH9, scheduleSystems,
          scheduleColumns, attachIndex, groupNotesByColumn, sortByX,
          List.insertionSort, noteTriggerEvent, h, List.filterMap_cons,
          groupAux])⟩
